import Mathlib

/-!
# ECG streamer: command listener, streamer, bus reader and sampler

A shallow embedding of `hal/src/udp.c`, `hal/src/adc.c` and `app/src/main.c`.

* Bytes are natural numbers below 256; a `char` buffer is a `List Nat` and a C
  string is the part of a buffer before its first NUL byte.
* The file-scope variables of `udp.c` together with the flag `running` of
  `main.c` form the record `UdpState`; functions pass it explicitly.
* Every `sendto` call is recorded as a `Datagram` in an output list.
* Results of system calls (`recvfrom`, `socket`, `bind`, `ioctl`) and of the
  formatting call `snprintf("%.5f\n")` are inputs of the model.
-/

namespace ECG

/-! ## Data model (udp.c) -/

/-- The fields of `struct sockaddr_in` that identify a peer. -/
structure SockAddrIn where
  sin_family : Nat
  sin_port : Nat
  sin_addr : Nat
deriving DecidableEq, Repr

/-- One `sendto(sockfd, data, len, 0, dest, destlen)` call. -/
structure Datagram where
  sockfd : Int
  data : List Nat
  dest : SockAddrIn
  destlen : Nat
deriving DecidableEq, Repr

/-- File-scope state of `udp.c` plus the shared flag `running` of `main.c`.
`running_flag` is `true` when the pointer `running_flag` is non-NULL (it then
points at `running`); `sock_shut` records that `shutdown(sockfd, SHUT_RDWR)`
has been called. -/
structure UdpState where
  sockfd : Int
  running_flag : Bool
  running : Bool
  last_client : SockAddrIn
  last_client_len : Nat
  client_known : Bool
  sock_shut : Bool
deriving DecidableEq, Repr

/-- ASCII bytes of a string literal. -/
def bytes (s : String) : List Nat := s.data.map Char.toNat

/-- The `strlen` of a buffer: number of bytes before the first NUL (the end of
the modelled memory counts as a terminator). -/
def strlen : List Nat → Nat
  | [] => 0
  | b :: bs => if b = 0 then 0 else strlen bs + 1

/-- The `strcmp` of two buffers: difference of the first pair of differing
bytes, `0` when both strings end together (at a NUL byte or at the end of the
modelled memory). -/
def strcmp : List Nat → List Nat → Int
  | [], [] => 0
  | [], b :: _ => 0 - (b : Int)
  | a :: _, [] => (a : Int)
  | a :: as, b :: bs =>
    if a ≠ b then (a : Int) - (b : Int) else if a = 0 then 0 else strcmp as bs

/-- The trimming loop of `handle_command`:
`while (len > 0 && (s[len-1] == '\n' || s[len-1] == '\r')) s[--len] = '\0';`
returning the buffer and the final `len`. -/
def trim : List Nat → Nat → List Nat × Nat
  | buf, 0 => (buf, 0)
  | buf, len + 1 =>
    if buf.getD len 0 = 10 ∨ buf.getD len 0 = 13 then trim (buf.set len 0) len
    else (buf, len + 1)

/-- Result of `handle_command`: the (modified) input buffer, the new state and
the datagrams sent. -/
structure CmdResult where
  buf : List Nat
  st : UdpState
  out : List Datagram
deriving DecidableEq, Repr

/-- The function `handle_command(userInput, sockfd, client_address, size)`. -/
def handle_command (userInput : List Nat) (sockfd : Int) (client_address : SockAddrIn)
    (size : Nat) (st : UdpState) : CmdResult :=
  let t := trim userInput (strlen userInput)
  let userInput := t.1
  let len := t.2
  if len = 0 then
    { buf := userInput, st := st, out := [] }
  else if strcmp userInput (bytes "send") = 0 then
    let st := { st with last_client := client_address, last_client_len := size,
                        client_known := true }
    let reply := bytes "OK: streaming ECG samples.\n"
    { buf := userInput, st := st,
      out := [⟨sockfd, reply.take (strlen reply), client_address, size⟩] }
  else if strcmp userInput (bytes "stop") = 0 then
    let st := if st.running_flag then { st with running := false } else st
    let reply := bytes "Stopping server.\n"
    let out := [⟨sockfd, reply.take (strlen reply), client_address, size⟩]
    let st := if sockfd ≥ 0 then { st with sock_shut := true } else st
    { buf := userInput, st := st, out := out }
  else
    let reply := bytes "Unknown command. Use: send or stop\n"
    { buf := userInput, st := st,
      out := [⟨sockfd, reply.take (strlen reply), client_address, size⟩] }

/-- The function `udp_send_sample(v)`; `snprintf v` is the pair (buffer, return
value) of `snprintf(buf, sizeof(buf), "%.5f\n", v)`. -/
def udp_send_sample {V : Type} (snprintf : V → List Nat × Int) (st : UdpState) (v : V) :
    List Datagram :=
  if !st.client_known || st.sockfd < 0 then []
  else
    let r := snprintf v
    if r.2 ≤ 0 then []
    else [⟨st.sockfd, r.1.take r.2.toNat, st.last_client, st.last_client_len⟩]

/-- What one `recvfrom` call of the listener delivers: an error (`n < 0`) or a
datagram with its payload and the sender address and address length. -/
inductive Recv where
  | error : Recv
  | dgram (payload : List Nat) (src : SockAddrIn) (srclen : Nat) : Recv
deriving DecidableEq, Repr

/-- The receive part of one listener iteration:
`n = recvfrom(sockfd, buffer, sizeof(buffer) - 1, ...)` stores the first
`n ≤ 511` payload bytes at the start of `buffer`, then `buffer[n] = '\0'`. -/
def recv_into (buffer payload : List Nat) : List Nat :=
  let n := min payload.length 511
  (payload.take n ++ buffer.drop n).set n 0

/-- One listener iteration on a received datagram:
`buffer[n] = '\0'; handle_command(buffer, sockfd, client_addr, client_len);`. -/
def listen_iter (buffer payload : List Nat) (src : SockAddrIn) (srclen : Nat)
    (st : UdpState) : CmdResult :=
  handle_command (recv_into buffer payload) st.sockfd src srclen st

/-- The receive loop of `udp_thread_listen`, driven by the list of `recvfrom`
outcomes; an exhausted list means the thread is blocked in `recvfrom`.
The thread is started by `udp_init` only, after `running_flag` is set, so
`atomic_load(running_flag)` reads `running`. -/
def listen_loop : List Recv → List Nat → UdpState → UdpState × List Datagram
  | [], _, st => (st, [])
  | ev :: evs, buffer, st =>
    if !st.running then (st, [])
    else
      match ev with
      | .error => (st, [])
      | .dgram payload src srclen =>
        let r := listen_iter buffer payload src srclen st
        let rest := listen_loop evs r.buf r.st
        (rest.1, r.out ++ rest.2)

/-- The function `udp_thread_listen`: `sock_ret` and `bind_ret` are the results
of `socket` and `bind`, `buffer` the initial contents of the local array. -/
def udp_thread_listen (sock_ret bind_ret : Int) (buffer : List Nat) (evs : List Recv)
    (st : UdpState) : UdpState × List Datagram :=
  let st := { st with sockfd := sock_ret }
  if sock_ret < 0 then (st, [])
  else if bind_ret < 0 then ({ st with sockfd := -1 }, [])
  else listen_loop evs buffer st

/-- The assignment `running_flag = running;` of `udp_init`. -/
def udp_init (st : UdpState) : UdpState := { st with running_flag := true }

/-- The function `udp_cleanup`: shut the socket down, join the thread, close the
socket and reset `sockfd`. -/
def udp_cleanup (st : UdpState) : UdpState :=
  let st := if st.sockfd ≥ 0 then { st with sock_shut := true } else st
  if st.sockfd ≥ 0 then { st with sockfd := -1 } else st

/-! ## Bus reader and sampler (adc.c) -/

/-- The `struct spi_ioc_transfer` handed to `ioctl(fd, SPI_IOC_MESSAGE(1), &tr)`:
the command bytes `tx` and the scalar fields. -/
structure SpiTransfer where
  tx : List Nat
  len : Nat
  speed_hz : Nat
  bits_per_word : Nat
  cs_change : Nat
deriving DecidableEq, Repr

/-- Outcome of the transfer `ioctl`: its return value and the three bytes it
left in `rx`. -/
structure SpiResult where
  ret : Int
  rx0 : Nat
  rx1 : Nat
  rx2 : Nat
deriving DecidableEq, Repr

/-- The transfer request built by `read_ch` for channel `ch`; the bit operations
on the `int` channel act on its low byte `ch mod 256`. -/
def read_ch_tr (ch : Int) (speed_hz : Nat) : SpiTransfer :=
  let c := (ch % 256).toNat
  { tx := [(0x06 ||| ((c &&& 0x04) >>> 2)) % 256, ((c &&& 0x03) <<< 6) % 256, 0x00],
    len := 3, speed_hz := speed_hz, bits_per_word := 8, cs_change := 0 }

/-- The function `read_ch(fd, ch, speed_hz)`; `ioctl` is the transfer system
call, and the bytes of `rx` are stored as `uint8_t`. -/
def read_ch (ioctl : Int → SpiTransfer → SpiResult) (fd : Int) (ch : Int) (speed_hz : Nat) :
    Int :=
  let r := ioctl fd (read_ch_tr ch speed_hz)
  let rx1 := r.rx1 % 256
  let rx2 := r.rx2 % 256
  if r.ret < 1 then -1 else ((((rx1 &&& 0x0F) <<< 8) ||| rx2 : Nat) : Int)

/-- Floor of the base-2 logarithm of a positive rational. -/
def ilog2 (q : ℚ) : ℤ :=
  let k : ℤ := (Nat.log2 q.num.natAbs : ℤ) - (Nat.log2 q.den : ℤ)
  if (2 : ℚ) ^ k ≤ q then k else k - 1

/-- Rounding of a rational to the nearest integer, ties to even. -/
def rne (q : ℚ) : ℤ :=
  let f := ⌊q⌋
  if q - f < 1 / 2 then f
  else if 1 / 2 < q - f then f + 1
  else if f % 2 = 0 then f else f + 1

/-- Rounding of an exact value to IEEE-754 binary32 (the C type `float`): 24-bit
significand, round to nearest with ties to even, least exponent -126 (below it
the spacing stays that of the subnormals). Finite `float` values are the
rationals this function fixes; overflow is not reached by the sampler, whose
values stay below 2^31. -/
def f32 (q : ℚ) : ℚ :=
  let e := max (ilog2 |q|) (-126)
  let ulp : ℚ := 2 ^ (e - 23)
  rne (q / ulp) * ulp

/-- The sampler's conversion `(ch1 / 4095.0f) * 3.3f`: `ch1` is converted to
`float`, and the division and the product are each rounded to `float`. -/
def convert (ch1 : ℤ) : ℚ := f32 (f32 (f32 (ch1 : ℚ) / f32 4095) * f32 (33 / 10))

/-- The global `speed` of adc.c. -/
def speed : Nat := 250000

/-- What one sampler iteration produces: the value printed by
`printf("%d\n", ch1)` and the datagrams sent by `udp_send_sample(v)`. -/
structure SamplerOut where
  printed : Int
  sent : List Datagram
deriving DecidableEq, Repr

/-- The body of the sampler loop:
`ch1 = read_ch(fd, 1, speed); printf(..); v = (ch1 / 4095.0f) * 3.3f;
udp_send_sample(v);`. -/
def sampler_iter (ioctl : Int → SpiTransfer → SpiResult) (snprintf : ℚ → List Nat × Int)
    (fd : Int) (st : UdpState) : SamplerOut :=
  let ch1 := read_ch ioctl fd 1 speed
  let v := convert ch1
  { printed := ch1, sent := udp_send_sample snprintf st v }

/-- The loop of `sampler` while the shared state is `st`: one entry of the list
per bus transfer outcome; `atomic_load(running_adc)` reads `running`. -/
def sampler (snprintf : ℚ → List Nat × Int) (fd : Int) (st : UdpState) :
    List (Int → SpiTransfer → SpiResult) → List SamplerOut
  | [] => []
  | ioctl :: rest =>
    if st.running = true then sampler_iter ioctl snprintf fd st :: sampler snprintf fd st rest
    else []

/-! ## The threads as a transition system on the shared state -/

/-- An atomic step of one of the threads on the shared state. -/
inductive Step where
  | command (userInput : List Nat) (sockfd : Int) (src : SockAddrIn) (size : Nat) : Step
  | listen (buffer : List Nat) (ev : Recv) : Step
  | sample (ioctl : Int → SpiTransfer → SpiResult) (snprintf : ℚ → List Nat × Int)
      (fd : Int) : Step
  | send (snprintf : ℚ → List Nat × Int) (v : ℚ) : Step
  | cleanup : Step

/-- Effect of a step: the new shared state and the datagrams sent. A step is a
`handle_command` call, one iteration of the receive loop, one iteration of the
sampler loop, a `udp_send_sample` call, or `udp_cleanup`. -/
def sys_step (st : UdpState) : Step → UdpState × List Datagram
  | .command userInput sockfd src size =>
    let r := handle_command userInput sockfd src size st
    (r.st, r.out)
  | .listen buffer ev =>
    if !st.running then (st, [])
    else
      match ev with
      | .error => (st, [])
      | .dgram payload src srclen =>
        let r := listen_iter buffer payload src srclen st
        (r.st, r.out)
  | .sample ioctl snprintf fd =>
    if st.running = true then (st, (sampler_iter ioctl snprintf fd st).sent) else (st, [])
  | .send snprintf v => (st, udp_send_sample snprintf st v)
  | .cleanup => (udp_cleanup st, [])

/-- The state after a sequence of steps, and all datagrams sent on the way. -/
def run : List Step → UdpState → UdpState × List Datagram
  | [], st => (st, [])
  | step :: steps, st =>
    let r := sys_step st step
    let rest := run steps r.1
    (rest.1, r.2 ++ rest.2)

/-- The shared state once `main` has run `atomic_store(&running, true)` and
`udp_init(&running)`, with the initial values of the file-scope variables of
udp.c. -/
def startup : UdpState :=
  udp_init
    { sockfd := -1, running_flag := false, running := true, last_client := ⟨0, 0, 0⟩,
      last_client_len := 0, client_known := false, sock_shut := false }

/-! ## Reference definitions for the command protocol -/

/-- Line terminator bytes: `'\n'` and `'\r'`. -/
def isEol (b : Nat) : Bool := b == 10 || b == 13

/-- The C string held in a buffer: the bytes before the first NUL. -/
def cstr (buf : List Nat) : List Nat := buf.takeWhile (fun b => b != 0)

/-- Text with its trailing line terminators removed. -/
def rstrip (t : List Nat) : List Nat := t.rdropWhile isEol

/-- The reply and state change of the command protocol for a stripped command
text `cmd`, as the protocol table gives them. -/
def dispatch (cmd : List Nat) (sockfd : Int) (src : SockAddrIn) (size : Nat)
    (st : UdpState) : UdpState × List Datagram :=
  if cmd = [] then (st, [])
  else if cmd = bytes "send" then
    ({ st with last_client := src, last_client_len := size, client_known := true },
     [⟨sockfd, bytes "OK: streaming ECG samples.\n", src, size⟩])
  else if cmd = bytes "stop" then
    ({ st with running := if st.running_flag then false else st.running,
               sock_shut := if sockfd ≥ 0 then true else st.sock_shut },
     [⟨sockfd, bytes "Stopping server.\n", src, size⟩])
  else (st, [⟨sockfd, bytes "Unknown command. Use: send or stop\n", src, size⟩])

/-- The unit conversion as the design states it, over the rationals:
`value = (raw / full_scale_counts) * reference_voltage`. -/
def convert_exact (raw : ℤ) : ℚ := ((raw : ℚ) / 4095) * (33 / 10)

/-! ## Lemmas on C strings and the trimming loop -/

theorem strlen_eq_length_cstr (buf : List Nat) : strlen buf = (cstr buf).length := by
  induction buf with
  | nil => rfl
  | cons b bs ih =>
    by_cases hb : b = 0
    · simp [strlen, cstr, hb]
    · simp [strlen, cstr, hb, List.takeWhile_cons] at ih ⊢
      exact ih

theorem cstr_append_dropWhile (buf : List Nat) :
    cstr buf ++ buf.dropWhile (fun b => b != 0) = buf := by
  simp [cstr]

theorem cstr_ne_zero (buf : List Nat) : ∀ b ∈ cstr buf, b ≠ 0 := by
  intro b hb
  have := List.mem_takeWhile_imp hb
  simpa using this

theorem cstr_of_ne_zero (t : List Nat) (h : ∀ b ∈ t, b ≠ 0) : cstr t = t := by
  unfold cstr
  rw [List.takeWhile_eq_self_iff]
  intro b hb
  simpa using h b hb

theorem cstr_append_zero (t rest : List Nat) (h : ∀ b ∈ t, b ≠ 0) :
    cstr (t ++ 0 :: rest) = t := by
  induction t with
  | nil => simp [cstr]
  | cons a t ih =>
    have ha : a ≠ 0 := h a (by simp)
    have := ih (fun b hb => h b (by simp [hb]))
    simp [cstr, List.takeWhile_cons, ha] at this ⊢
    exact this

theorem getD_append_cons (p post : List Nat) (x : Nat) :
    (p ++ x :: post).getD p.length 0 = x := by
  induction p with
  | nil => rfl
  | cons a p ih => simpa using ih

theorem trim_append (pre post : List Nat) :
    trim (pre ++ post) pre.length =
      (rstrip pre ++ List.replicate (pre.length - (rstrip pre).length) 0 ++ post,
       (rstrip pre).length) := by
  induction pre using List.reverseRecOn generalizing post with
  | nil => simp [trim, rstrip]
  | append_singleton p x ih =>
    by_cases hx : isEol x = true
    · have hx2 : x = 10 ∨ x = 13 := by simpa [isEol] using hx
      have hr : rstrip (p ++ [x]) = rstrip p := by
        simp [rstrip, List.rdropWhile_concat_pos, hx]
      have hp : rstrip p <+: p := List.rdropWhile_prefix isEol p
      have hle : (rstrip p).length ≤ p.length := hp.length_le
      rw [hr]
      simp only [List.length_append, List.length_singleton, trim]
      have hget : (p ++ [x] ++ post).getD p.length 0 = x := by
        simpa using getD_append_cons p post x
      rw [hget, if_pos hx2]
      have hset : (p ++ [x] ++ post).set p.length 0 = p ++ (0 :: post) := by
        simp [List.set_append]
      rw [hset, ih]
      have : p.length + 1 - (rstrip p).length = (p.length - (rstrip p).length) + 1 := by omega
      rw [this, List.replicate_succ']
      simp
    · have hx2 : ¬ (x = 10 ∨ x = 13) := by simpa [isEol] using hx
      have hr : rstrip (p ++ [x]) = p ++ [x] := by
        simp [rstrip, List.rdropWhile_concat_neg, hx]
      rw [hr]
      simp only [List.length_append, List.length_singleton, trim]
      have hget : (p ++ [x] ++ post).getD p.length 0 = x := by
        simpa using getD_append_cons p post x
      rw [hget, if_neg hx2]
      simp

theorem rstrip_ne_zero (t : List Nat) (h : ∀ b ∈ t, b ≠ 0) : ∀ b ∈ rstrip t, b ≠ 0 := by
  intro b hb
  have hp : rstrip t <+: t := List.rdropWhile_prefix isEol t
  exact h b (hp.subset hb)

theorem dropWhile_head_zero (buf : List Nat) (c : Nat) (cs : List Nat)
    (h : buf.dropWhile (fun b => b != 0) = c :: cs) : c = 0 := by
  induction buf with
  | nil => simp at h
  | cons a as ih =>
    by_cases ha : a = 0
    · simp [List.dropWhile_cons, ha] at h
      exact h.1.symm
    · simp [List.dropWhile_cons, ha] at h
      exact ih h

theorem trim_strlen (buf : List Nat) :
    cstr (trim buf (strlen buf)).1 = rstrip (cstr buf) ∧
      (trim buf (strlen buf)).2 = (rstrip (cstr buf)).length := by
  have h := trim_append (cstr buf) (buf.dropWhile (fun b => b != 0))
  rw [cstr_append_dropWhile, ← strlen_eq_length_cstr] at h
  rw [h]
  refine ⟨?_, rfl⟩
  have hnz := rstrip_ne_zero (cstr buf) (cstr_ne_zero buf)
  generalize hk : strlen buf - (rstrip (cstr buf)).length = k
  cases k with
  | zero =>
    cases hpost : buf.dropWhile (fun b => b != 0) with
    | nil => simpa using cstr_of_ne_zero _ hnz
    | cons c cs =>
      have hc := dropWhile_head_zero buf c cs hpost
      subst hc
      simpa using cstr_append_zero _ cs hnz
  | succ k =>
    have := cstr_append_zero (rstrip (cstr buf))
      (List.replicate k 0 ++ buf.dropWhile (fun b => b != 0)) hnz
    simpa [List.replicate_succ] using this

theorem strcmp_eq_zero_iff (a b : List Nat) : strcmp a b = 0 ↔ cstr a = cstr b := by
  induction a generalizing b with
  | nil =>
    cases b with
    | nil => simp [strcmp]
    | cons y ys =>
      by_cases hy : y = 0
      · simp [strcmp, cstr, hy]
      · simp [strcmp, cstr, hy, List.takeWhile_cons]
  | cons x xs ih =>
    cases b with
    | nil =>
      by_cases hx : x = 0
      · simp [strcmp, cstr, hx]
      · simp [strcmp, cstr, hx, List.takeWhile_cons]
    | cons y ys =>
      by_cases hxy : x = y
      · subst hxy
        by_cases hx : x = 0
        · simp [strcmp, cstr, hx]
        · have := ih ys
          simp [strcmp, cstr, hx, List.takeWhile_cons] at this ⊢
          exact this
      · have hne : (x : Int) - (y : Int) ≠ 0 := by omega
        by_cases hx : x = 0
        · have hy : y ≠ 0 := fun h => hxy (by rw [hx, h])
          have hy2 : ¬ 0 = y := fun h => hy h.symm
          simp [strcmp, cstr, hx, hy, hy2, List.takeWhile_cons]
        · by_cases hy : y = 0
          · simp [strcmp, cstr, hxy, hx, hy, List.takeWhile_cons]
          · simp [strcmp, cstr, hxy, hx, hy, List.takeWhile_cons, hne]

/-- The function `handle_command` computes the protocol table on the stripped
C string of its buffer. -/
theorem handle_command_eq_dispatch (buf : List Nat) (sockfd : Int) (src : SockAddrIn)
    (size : Nat) (st : UdpState) :
    ((handle_command buf sockfd src size st).st, (handle_command buf sockfd src size st).out)
      = dispatch (rstrip (cstr buf)) sockfd src size st := by
  obtain ⟨h1, h2⟩ := trim_strlen buf
  have hsend : cstr (bytes "send") = bytes "send" := by decide
  have hstop : cstr (bytes "stop") = bytes "stop" := by decide
  have r1 : (bytes "OK: streaming ECG samples.\n").take
      (strlen (bytes "OK: streaming ECG samples.\n")) = bytes "OK: streaming ECG samples.\n" := by
    decide
  have r2 : (bytes "Stopping server.\n").take
      (strlen (bytes "Stopping server.\n")) = bytes "Stopping server.\n" := by decide
  have r3 : (bytes "Unknown command. Use: send or stop\n").take
      (strlen (bytes "Unknown command. Use: send or stop\n"))
        = bytes "Unknown command. Use: send or stop\n" := by decide
  unfold handle_command dispatch
  simp only [h2, strcmp_eq_zero_iff, h1, hsend, hstop, r1, r2, r3, List.length_eq_zero]
  have n1 : bytes "send" ≠ [] := by decide
  have n2 : bytes "stop" ≠ [] := by decide
  have n3 : bytes "stop" ≠ bytes "send" := by decide
  by_cases e0 : rstrip (cstr buf) = []
  · simp [e0]
  · by_cases e1 : rstrip (cstr buf) = bytes "send"
    · simp [e1, n1]
    · by_cases e2 : rstrip (cstr buf) = bytes "stop"
      · obtain ⟨fd, rf, run, lc, lcl, ck, ss⟩ := st
        cases rf <;> by_cases hs : sockfd ≥ 0 <;> simp [e2, n2, n3, hs]
      · simp [e0, e1, e2]

theorem cstr_append_zero_cons (p rest : List Nat) : cstr (p ++ 0 :: rest) = cstr p := by
  induction p with
  | nil => simp [cstr]
  | cons a p ih =>
    by_cases ha : a = 0
    · simp [cstr, ha]
    · simp [cstr, List.takeWhile_cons, ha] at ih ⊢
      exact ih

theorem rstrip_append_eol (c t : List Nat) (ht : ∀ b ∈ t, b = 10 ∨ b = 13) :
    rstrip (c ++ t) = rstrip c := by
  induction t using List.reverseRecOn with
  | nil => simp
  | append_singleton t x ih =>
    have hx : isEol x = true := by
      have := ht x (by simp)
      simpa [isEol] using this
    have := ih (fun b hb => ht b (by simp [hb]))
    rw [← List.append_assoc]
    simp only [rstrip] at this ⊢
    rw [List.rdropWhile_concat_pos _ _ _ hx, this]

theorem rstrip_append_cons_neg (p q : List Nat) (x : Nat) (hx : isEol x = false) :
    rstrip (p ++ x :: q) = p ++ x :: rstrip q := by
  induction q using List.reverseRecOn with
  | nil =>
    have : ¬ isEol x = true := by simp [hx]
    simp [rstrip, List.rdropWhile_concat_neg _ _ _ this]
  | append_singleton q y ih =>
    have e1 : p ++ x :: (q ++ [y]) = (p ++ x :: q) ++ [y] := by simp
    by_cases hy : isEol y = true
    · simp only [rstrip] at ih ⊢
      rw [e1, List.rdropWhile_concat_pos _ _ _ hy, List.rdropWhile_concat_pos _ _ _ hy, ih]
    · simp only [rstrip] at ih ⊢
      rw [e1, List.rdropWhile_concat_neg _ _ _ hy, List.rdropWhile_concat_neg _ _ _ hy]
      simp

theorem rstrip_idem (t : List Nat) : rstrip (rstrip t) = rstrip t := by
  induction t using List.reverseRecOn with
  | nil => simp [rstrip]
  | append_singleton t x ih =>
    by_cases hx : isEol x = true
    · simp only [rstrip] at ih ⊢
      rw [List.rdropWhile_concat_pos _ _ _ hx, ih]
    · simp only [rstrip] at ih ⊢
      rw [List.rdropWhile_concat_neg _ _ _ hx, List.rdropWhile_concat_neg _ _ _ hx]

/-- Trailing line terminators after a command text do not change the stripped
C string the handler sees. -/
theorem rstrip_cstr_append (c t rest : List Nat) (ht : ∀ b ∈ t, b = 10 ∨ b = 13) :
    rstrip (cstr (c ++ t ++ 0 :: rest)) = rstrip (cstr c) := by
  cases hpost : c.dropWhile (fun b => b != 0) with
  | nil =>
    have hc : cstr c = c := by
      have := cstr_append_dropWhile c
      rw [hpost] at this
      simpa using this
    have hnz : ∀ b ∈ c ++ t, b ≠ 0 := by
      intro b hb
      rcases List.mem_append.1 hb with h | h
      · exact cstr_ne_zero c b (by rw [hc]; exact h)
      · rcases ht b h with h | h <;> omega
    rw [cstr_append_zero _ _ hnz, hc, rstrip_append_eol _ _ ht]
  | cons z q =>
    have hz := dropWhile_head_zero c z q hpost
    subst hz
    have hc : cstr c ++ 0 :: q = c := by
      have := cstr_append_dropWhile c
      rwa [hpost] at this
    have e : c ++ t ++ 0 :: rest = cstr c ++ 0 :: (q ++ t ++ 0 :: rest) := by
      conv_lhs => rw [← hc]
      simp
    rw [e, cstr_append_zero _ _ (cstr_ne_zero c)]

/-- Stripping a command text before it is NUL-terminated does not change the
stripped C string the handler sees. -/
theorem rstrip_cstr_rstrip (c rest : List Nat) :
    rstrip (cstr (rstrip c ++ 0 :: rest)) = rstrip (cstr c) := by
  cases hpost : c.dropWhile (fun b => b != 0) with
  | nil =>
    have hc : cstr c = c := by
      have := cstr_append_dropWhile c
      rw [hpost] at this
      simpa using this
    have hnz : ∀ b ∈ rstrip c, b ≠ 0 :=
      rstrip_ne_zero c (fun b hb => cstr_ne_zero c b (by rw [hc]; exact hb))
    rw [cstr_append_zero _ _ hnz, hc, rstrip_idem]
  | cons z q =>
    have hz := dropWhile_head_zero c z q hpost
    subst hz
    have hc : cstr c ++ 0 :: q = c := by
      have := cstr_append_dropWhile c
      rwa [hpost] at this
    have e : rstrip c = cstr c ++ 0 :: rstrip q := by
      conv_lhs => rw [← hc]
      exact rstrip_append_cons_neg _ _ _ (by decide)
    rw [e]
    have e2 : cstr c ++ 0 :: rstrip q ++ 0 :: rest = cstr c ++ 0 :: (rstrip q ++ 0 :: rest) := by
      simp
    rw [e2, cstr_append_zero _ _ (cstr_ne_zero c)]

/-- The listener hands `handle_command` a buffer whose C string is the C string
of the received payload. -/
theorem cstr_recv_into (buffer payload : List Nat) (hb : buffer.length = 512)
    (hp : payload.length ≤ 511) : cstr (recv_into buffer payload) = cstr payload := by
  unfold recv_into
  have hn : min payload.length 511 = payload.length := by omega
  simp only [hn, List.take_length]
  have hlt : payload.length < buffer.length := by omega
  have hd : buffer.drop payload.length
      = buffer.get ⟨payload.length, hlt⟩ :: buffer.drop (payload.length + 1) := by
    simp
  rw [List.set_append_right _ _ (le_refl _), hd, Nat.sub_self, List.set_cons_zero]
  exact cstr_append_zero_cons _ _

/-! ## Lemmas on binary32 rounding -/

theorem rne_floor_le (q : ℚ) : ⌊q⌋ ≤ rne q := by
  unfold rne
  simp only
  split_ifs <;> omega

theorem rne_le_floor_succ (q : ℚ) : rne q ≤ ⌊q⌋ + 1 := by
  unfold rne
  simp only
  split_ifs <;> omega

theorem rne_intCast (n : ℤ) : rne (n : ℚ) = n := by
  unfold rne
  simp

theorem rne_mono {x y : ℚ} (h : x ≤ y) : rne x ≤ rne y := by
  have hf : ⌊x⌋ ≤ ⌊y⌋ := Int.floor_mono h
  rcases lt_or_eq_of_le hf with hlt | heq
  · have h1 := rne_le_floor_succ x
    have h2 := rne_floor_le y
    omega
  · unfold rne
    simp only
    rw [← heq]
    have hxy : x - ⌊x⌋ ≤ y - ⌊x⌋ := by linarith
    split_ifs <;> first | omega | linarith

theorem ilog2_aux (n d : ℕ) (hn0 : n ≠ 0) (hd : 0 < d) (q : ℚ) (hq' : q = (n : ℚ) / (d : ℚ))
    (k : ℤ) (hk : k = (Nat.log2 n : ℤ) - (Nat.log2 d : ℤ)) :
    (2 : ℚ) ^ (if (2 : ℚ) ^ k ≤ q then k else k - 1) ≤ q ∧
      q < (2 : ℚ) ^ ((if (2 : ℚ) ^ k ≤ q then k else k - 1) + 1) := by
  have ha1 := Nat.log2_self_le hn0
  have ha2 := @Nat.lt_log2_self n
  have hb1 := Nat.log2_self_le (Nat.pos_iff_ne_zero.1 hd)
  have hb2 := @Nat.lt_log2_self d
  have hdq : (0 : ℚ) < d := by exact_mod_cast hd
  have ha1' : (2 : ℚ) ^ (Nat.log2 n) ≤ n := by exact_mod_cast ha1
  have ha2' : (n : ℚ) < 2 ^ (Nat.log2 n + 1) := by exact_mod_cast ha2
  have hb1' : (2 : ℚ) ^ (Nat.log2 d) ≤ d := by exact_mod_cast hb1
  have hb2' : (d : ℚ) < 2 ^ (Nat.log2 d + 1) := by exact_mod_cast hb2
  have h2 : (0 : ℚ) < 2 := by norm_num
  have e1 : (2 : ℚ) ^ (k + 1) = 2 ^ (Nat.log2 n + 1) / 2 ^ (Nat.log2 d) := by
    rw [show k + 1 = ((Nat.log2 n + 1 : ℕ) : ℤ) - ((Nat.log2 d : ℕ) : ℤ) by
      rw [hk]; push_cast; ring]
    rw [zpow_sub₀ h2.ne', zpow_natCast, zpow_natCast]
  have e2 : (2 : ℚ) ^ (k - 1) = 2 ^ (Nat.log2 n) / 2 ^ (Nat.log2 d + 1) := by
    rw [show k - 1 = ((Nat.log2 n : ℕ) : ℤ) - ((Nat.log2 d + 1 : ℕ) : ℤ) by
      rw [hk]; push_cast; ring]
    rw [zpow_sub₀ h2.ne', zpow_natCast, zpow_natCast]
  split_ifs with hle
  · refine ⟨hle, ?_⟩
    rw [e1, hq', div_lt_div_iff₀ hdq (by positivity)]
    calc (n : ℚ) * 2 ^ (Nat.log2 d) ≤ n * d := by
          apply mul_le_mul_of_nonneg_left hb1' (by positivity)
      _ < 2 ^ (Nat.log2 n + 1) * d := by
          apply mul_lt_mul_of_pos_right ha2' hdq
  · refine ⟨?_, ?_⟩
    · rw [e2, hq', div_le_div_iff₀ (by positivity) hdq]
      calc (2 : ℚ) ^ (Nat.log2 n) * d ≤ n * d := by
            apply mul_le_mul_of_nonneg_right ha1' hdq.le
        _ ≤ n * 2 ^ (Nat.log2 d + 1) := by
            apply mul_le_mul_of_nonneg_left hb2'.le (by positivity)
    · rw [sub_add_cancel]
      exact lt_of_not_le hle

theorem ilog2_spec {q : ℚ} (hq : 0 < q) :
    (2 : ℚ) ^ (ilog2 q) ≤ q ∧ q < (2 : ℚ) ^ (ilog2 q + 1) := by
  have hn : 0 < q.num := Rat.num_pos.2 hq
  have hn0 : q.num.natAbs ≠ 0 := by omega
  have hq' : q = (q.num.natAbs : ℚ) / (q.den : ℚ) := by
    have h1 : ((q.num.natAbs : ℤ) : ℚ) = (q.num : ℚ) := by
      rw [Int.natAbs_of_nonneg hn.le]
    have h2 : ((q.num.natAbs : ℤ) : ℚ) = (q.num.natAbs : ℚ) := Int.cast_natCast _
    rw [← h2, h1]
    exact (Rat.num_div_den q).symm
  exact ilog2_aux q.num.natAbs q.den hn0 q.den_pos q hq' _ rfl

theorem ilog2_mono {x y : ℚ} (hx : 0 < x) (h : x ≤ y) : ilog2 x ≤ ilog2 y := by
  have h1 := (ilog2_spec hx).1
  have h2 := (ilog2_spec (lt_of_lt_of_le hx h)).2
  have h3 : (2 : ℚ) ^ ilog2 x < 2 ^ (ilog2 y + 1) := lt_of_le_of_lt (le_trans h1 h) h2
  have := (zpow_lt_zpow_iff_right₀ (by norm_num : (1 : ℚ) < 2)).1 h3
  omega

theorem rne_zero : rne 0 = 0 := by
  have := rne_intCast 0
  simpa using this

theorem f32_zero : f32 0 = 0 := by
  unfold f32
  simp [rne_zero]

theorem f32_nonneg {x : ℚ} (hx : 0 ≤ x) : 0 ≤ f32 x := by
  unfold f32
  simp only
  have hu : (0 : ℚ) < 2 ^ (max (ilog2 |x|) (-126) - 23) := by positivity
  have h0 : rne 0 ≤ rne (x / 2 ^ (max (ilog2 |x|) (-126) - 23)) :=
    rne_mono (div_nonneg hx hu.le)
  rw [rne_zero] at h0
  have h1 : (0 : ℚ) ≤ (rne (x / 2 ^ (max (ilog2 |x|) (-126) - 23)) : ℚ) := by exact_mod_cast h0
  exact mul_nonneg h1 hu.le

theorem two_zpow_split (e : ℤ) (k : ℤ) : (2 : ℚ) ^ (e - 23 + k) = 2 ^ k * 2 ^ (e - 23) := by
  rw [zpow_add₀ (by norm_num : (2 : ℚ) ≠ 0), mul_comm]

/-- Rounding to binary32 is monotone on the non-negative rationals. -/
theorem f32_mono {x y : ℚ} (hx : 0 ≤ x) (h : x ≤ y) : f32 x ≤ f32 y := by
  rcases hx.eq_or_lt with h0 | hpos
  · rw [← h0, f32_zero]
    exact f32_nonneg (le_trans hx h)
  · have hy : 0 < y := lt_of_lt_of_le hpos h
    unfold f32
    simp only [abs_of_pos hpos, abs_of_pos hy]
    have hle : max (ilog2 x) (-126) ≤ max (ilog2 y) (-126) :=
      max_le_max (ilog2_mono hpos h) le_rfl
    have hux : (0 : ℚ) < 2 ^ (max (ilog2 x) (-126) - 23) := by positivity
    have huy : (0 : ℚ) < 2 ^ (max (ilog2 y) (-126) - 23) := by positivity
    rcases hle.eq_or_lt with heq | hlt
    · rw [← heq]
      have : rne (x / 2 ^ (max (ilog2 x) (-126) - 23)) ≤ rne (y / 2 ^ (max (ilog2 x) (-126) - 23)) :=
        rne_mono (div_le_div_of_nonneg_right h hux.le)
      have hc : (rne (x / 2 ^ (max (ilog2 x) (-126) - 23)) : ℚ)
          ≤ (rne (y / 2 ^ (max (ilog2 x) (-126) - 23)) : ℚ) := by exact_mod_cast this
      exact mul_le_mul_of_nonneg_right hc hux.le
    · generalize hex : max (ilog2 x) (-126) = ex at *
      generalize hey : max (ilog2 y) (-126) = ey at *
      have hey' : ey = ilog2 y := by
        have h1 : -126 ≤ ex := by rw [← hex]; exact le_max_right _ _
        rcases max_choice (ilog2 y) (-126) with hc | hc
        · rw [← hey, hc]
        · rw [hc] at hey; omega
      have hxe : ilog2 x ≤ ex := by rw [← hex]; exact le_max_left _ _
      -- upper bound on the rounded x
      have hxlt : x < 2 ^ (ex + 1) :=
        lt_of_lt_of_le (ilog2_spec hpos).2
          (zpow_le_zpow_right₀ (by norm_num) (by omega))
      have hsx : (2 : ℚ) ^ (ex + 1) = 2 ^ (24 : ℤ) * 2 ^ (ex - 23) := by
        rw [← two_zpow_split]; congr 1; ring
      have hx24 : x / 2 ^ (ex - 23) ≤ ((2 ^ 24 : ℤ) : ℚ) := by
        rw [div_le_iff₀ hux]
        have : ((2 ^ 24 : ℤ) : ℚ) = 2 ^ (24 : ℤ) := by norm_num
        rw [this, ← hsx]
        exact hxlt.le
      have hrx : rne (x / 2 ^ (ex - 23)) ≤ 2 ^ 24 := by
        have := rne_mono hx24
        rwa [rne_intCast] at this
      have hfx : (rne (x / 2 ^ (ex - 23)) : ℚ) * 2 ^ (ex - 23) ≤ 2 ^ (ex + 1) := by
        rw [hsx]
        have hc : (rne (x / 2 ^ (ex - 23)) : ℚ) ≤ 2 ^ (24 : ℤ) := by
          have : (rne (x / 2 ^ (ex - 23)) : ℚ) ≤ ((2 ^ 24 : ℤ) : ℚ) := by exact_mod_cast hrx
          refine le_trans this ?_
          norm_num
        exact mul_le_mul_of_nonneg_right hc hux.le
      -- lower bound on the rounded y
      have hyge : (2 : ℚ) ^ ey ≤ y := by rw [hey']; exact (ilog2_spec hy).1
      have hsy : (2 : ℚ) ^ ey = 2 ^ (23 : ℤ) * 2 ^ (ey - 23) := by
        rw [← two_zpow_split]; congr 1; ring
      have hy23 : ((2 ^ 23 : ℤ) : ℚ) ≤ y / 2 ^ (ey - 23) := by
        rw [le_div_iff₀ huy]
        have : ((2 ^ 23 : ℤ) : ℚ) = 2 ^ (23 : ℤ) := by norm_num
        rw [this, ← hsy]
        exact hyge
      have hry : 2 ^ 23 ≤ rne (y / 2 ^ (ey - 23)) := by
        have := rne_mono hy23
        rwa [rne_intCast] at this
      have hfy : (2 : ℚ) ^ ey ≤ (rne (y / 2 ^ (ey - 23)) : ℚ) * 2 ^ (ey - 23) := by
        rw [hsy]
        have hc : (2 : ℚ) ^ (23 : ℤ) ≤ (rne (y / 2 ^ (ey - 23)) : ℚ) := by
          have : ((2 ^ 23 : ℤ) : ℚ) ≤ (rne (y / 2 ^ (ey - 23)) : ℚ) := by exact_mod_cast hry
          refine le_trans ?_ this
          norm_num
        exact mul_le_mul_of_nonneg_right hc huy.le
      have hmid : (2 : ℚ) ^ (ex + 1) ≤ 2 ^ ey :=
        zpow_le_zpow_right₀ (by norm_num) (by omega)
      exact le_trans hfx (le_trans hmid hfy)


theorem ilog2_eq {q : ℚ} {e : ℤ} (h1 : (2 : ℚ) ^ e ≤ q) (h2 : q < (2 : ℚ) ^ (e + 1)) :
    ilog2 q = e := by
  have hq : 0 < q := lt_of_lt_of_le (by positivity) h1
  obtain ⟨s1, s2⟩ := ilog2_spec hq
  have a1 : (2 : ℚ) ^ e < 2 ^ (ilog2 q + 1) := lt_of_le_of_lt h1 s2
  have a2 : (2 : ℚ) ^ ilog2 q < 2 ^ (e + 1) := lt_of_le_of_lt s1 h2
  have b1 := (zpow_lt_zpow_iff_right₀ (by norm_num : (1 : ℚ) < 2)).1 a1
  have b2 := (zpow_lt_zpow_iff_right₀ (by norm_num : (1 : ℚ) < 2)).1 a2
  omega

theorem rne_eq {x : ℚ} {m : ℤ} (h1 : (m : ℚ) - 1 / 2 < x) (h2 : x < (m : ℚ) + 1 / 2) :
    rne x = m := by
  unfold rne
  simp only
  rcases le_or_lt (m : ℚ) x with hge | hlt
  · have hf : ⌊x⌋ = m := by
      rw [Int.floor_eq_iff]
      constructor
      · exact hge
      · linarith
    rw [hf, if_pos (by linarith)]
  · have hf : ⌊x⌋ = m - 1 := by
      rw [Int.floor_eq_iff]
      push_cast
      constructor
      · linarith
      · linarith
    rw [hf]
    push_cast
    rw [if_neg (by linarith), if_pos (by linarith)]
    ring

/-- Evaluation of the rounding at a normal number: exponent `e` and rounded
significand `m`. -/
theorem f32_eval {q : ℚ} (e m : ℤ) (he : -126 ≤ e) (h1 : (2 : ℚ) ^ e ≤ |q|)
    (h2 : |q| < (2 : ℚ) ^ (e + 1)) (h3 : (m : ℚ) - 1 / 2 < q / 2 ^ (e - 23))
    (h4 : q / 2 ^ (e - 23) < (m : ℚ) + 1 / 2) : f32 q = m * 2 ^ (e - 23) := by
  unfold f32
  simp only
  rw [ilog2_eq h1 h2, max_eq_left he, rne_eq h3 h4]

theorem f32_4095 : f32 4095 = 4095 := by
  rw [f32_eval 11 (4095 * 2 ^ 12) (by norm_num) (by norm_num [abs_of_pos])
    (by norm_num [abs_of_pos]) (by norm_num) (by norm_num)]
  norm_num
theorem f32_3_3 : f32 (33 / 10) = 13841203 / 4194304 := by
  rw [f32_eval 1 13841203 (by norm_num) (by norm_num [abs_of_pos])
    (by norm_num [abs_of_pos]) (by norm_num) (by norm_num)]
  norm_num
theorem f32_3_3f : f32 (13841203 / 4194304) = 13841203 / 4194304 := by
  rw [f32_eval 1 13841203 (by norm_num) (by norm_num [abs_of_pos])
    (by norm_num [abs_of_pos]) (by norm_num) (by norm_num)]
  norm_num
theorem f32_one : f32 1 = 1 := by
  rw [f32_eval 0 (2 ^ 23) (by norm_num) (by norm_num)
    (by norm_num) (by norm_num) (by norm_num)]
  norm_num
theorem f32_neg_one : f32 (-1) = -1 := by
  rw [f32_eval 0 (-2 ^ 23) (by norm_num) (by norm_num)
    (by norm_num) (by norm_num) (by norm_num)]
  norm_num
theorem f32_neg_inv : f32 (-1 / 4095) = -8390657 / 34359738368 := by
  rw [f32_eval (-12) (-8390657) (by norm_num) (by norm_num [abs_of_neg])
    (by norm_num [abs_of_neg]) (by norm_num) (by norm_num)]
  norm_num
theorem f32_neg_prod :
    f32 (-8390657 / 34359738368 * (13841203 / 4194304)) = -1730573 / 2147483648 := by
  rw [f32_eval (-11) (-13844584) (by norm_num) (by norm_num [abs_of_neg])
    (by norm_num [abs_of_neg]) (by norm_num) (by norm_num)]
  norm_num

theorem convert_4095 : convert 4095 = 13841203 / 4194304 := by
  unfold convert
  norm_num [f32_4095, f32_3_3, f32_one, f32_3_3f]

theorem convert_neg_one : convert (-1) = -1730573 / 2147483648 := by
  unfold convert
  have h : ((-1 : ℤ) : ℚ) = -1 := by norm_num
  rw [h, f32_neg_one, f32_4095, f32_3_3, f32_neg_inv, f32_neg_prod]

theorem convert_zero : convert 0 = 0 := by
  unfold convert
  simp [f32_zero]

theorem convert_mono {a b : ℤ} (h0 : 0 ≤ a) (hab : a ≤ b) : convert a ≤ convert b := by
  unfold convert
  have ha : (0 : ℚ) ≤ (a : ℚ) := by exact_mod_cast h0
  have hq : (a : ℚ) ≤ (b : ℚ) := by exact_mod_cast hab
  have h1 : f32 a ≤ f32 b := f32_mono ha hq
  have h1n : 0 ≤ f32 (a : ℚ) := f32_nonneg ha
  rw [f32_4095, f32_3_3]
  have h2 : f32 (f32 (a : ℚ) / 4095) ≤ f32 (f32 (b : ℚ) / 4095) :=
    f32_mono (div_nonneg h1n (by norm_num)) (div_le_div_of_nonneg_right h1 (by norm_num))
  have h2n : 0 ≤ f32 (f32 (a : ℚ) / 4095) := f32_nonneg (div_nonneg h1n (by norm_num))
  exact f32_mono (mul_nonneg h2n (by norm_num)) (mul_le_mul_of_nonneg_right h2 (by norm_num))


/-! ## Lemmas on the listener, the handler and the bus reader -/

theorem listen_iter_eq_dispatch (buffer payload : List Nat) (src : SockAddrIn) (srclen : Nat)
    (st : UdpState) (hb : buffer.length = 512) (hp : payload.length ≤ 511) :
    ((listen_iter buffer payload src srclen st).st, (listen_iter buffer payload src srclen st).out)
      = dispatch (rstrip (cstr payload)) st.sockfd src srclen st := by
  unfold listen_iter
  rw [handle_command_eq_dispatch, cstr_recv_into buffer payload hb hp]

theorem dispatch_running (cmd : List Nat) (sockfd : Int) (src : SockAddrIn) (size : Nat)
    (st : UdpState) (h : st.running = false) :
    (dispatch cmd sockfd src size st).1.running = false := by
  unfold dispatch
  split_ifs <;> simp [h]

theorem handle_command_running (buf : List Nat) (sockfd : Int) (src : SockAddrIn) (size : Nat)
    (st : UdpState) (h : st.running = false) :
    (handle_command buf sockfd src size st).st.running = false := by
  have e := handle_command_eq_dispatch buf sockfd src size st
  have := dispatch_running (rstrip (cstr buf)) sockfd src size st h
  rw [← e] at this
  exact this

theorem dispatch_stop (sockfd : Int) (src : SockAddrIn) (size : Nat) (st : UdpState)
    (hf : st.running_flag = true) :
    (dispatch (bytes "stop") sockfd src size st).1.running = false ∧
      (dispatch (bytes "stop") sockfd src size st).1.running_flag = true ∧
      (dispatch (bytes "stop") sockfd src size st).2
        = [⟨sockfd, bytes "Stopping server.\n", src, size⟩] := by
  have n2 : bytes "stop" ≠ [] := by decide
  have n3 : bytes "stop" ≠ bytes "send" := by decide
  simp [dispatch, n2, n3, hf]

theorem reading_lt (a b : Nat) : ((a % 256 &&& 0x0F) <<< 8) ||| (b % 256) < 4096 := by
  have h1 : a % 256 &&& 0x0F < 2 ^ 4 := Nat.and_lt_two_pow _ (by norm_num)
  have h2 : (a % 256 &&& 0x0F) <<< 8 < 2 ^ 12 := by
    rw [Nat.shiftLeft_eq]
    omega
  have h3 : b % 256 < 2 ^ 12 := by omega
  exact Nat.or_lt_two_pow h2 h3

theorem listen_loop_stopped (evs : List Recv) (buffer : List Nat) (st : UdpState)
    (h : st.running = false) : listen_loop evs buffer st = (st, []) := by
  cases evs with
  | nil => rfl
  | cons ev evs => simp [listen_loop, h]

theorem listen_loop_stop (buffer p : List Nat) (a : SockAddrIn) (l : Nat) (evs : List Recv)
    (st : UdpState) (hb : buffer.length = 512) (hp : p.length ≤ 511)
    (hs : rstrip (cstr p) = bytes "stop") (hrun : st.running = true)
    (hf : st.running_flag = true) :
    (listen_loop (.dgram p a l :: evs) buffer st).2
        = [⟨st.sockfd, bytes "Stopping server.\n", a, l⟩] ∧
      (listen_loop (.dgram p a l :: evs) buffer st).1.running = false := by
  have e := listen_iter_eq_dispatch buffer p a l st hb hp
  rw [hs] at e
  obtain ⟨d1, _, d3⟩ := dispatch_stop st.sockfd a l st hf
  rw [← e] at d1 d3
  simp only at d1 d3
  simp only [listen_loop, hrun, Bool.not_true, Bool.false_eq_true, if_false]
  rw [listen_loop_stopped evs _ _ d1, d3]
  exact ⟨by simp, d1⟩

theorem thread_stop (sock_ret bind_ret : Int) (buffer p : List Nat) (a : SockAddrIn) (l : Nat)
    (evs : List Recv) (st : UdpState) (hsock : 0 ≤ sock_ret) (hbind : 0 ≤ bind_ret)
    (hb : buffer.length = 512) (hp : p.length ≤ 511)
    (hs : rstrip (cstr p) = bytes "stop") (hrun : st.running = true) :
    (udp_thread_listen sock_ret bind_ret buffer (.dgram p a l :: evs) (udp_init st)).2
        = [⟨sock_ret, bytes "Stopping server.\n", a, l⟩] ∧
      (udp_thread_listen sock_ret bind_ret buffer (.dgram p a l :: evs)
        (udp_init st)).1.running = false := by
  have h1 : ¬ sock_ret < 0 := by omega
  have h2 : ¬ bind_ret < 0 := by omega
  simp only [udp_thread_listen, h1, h2, if_false]
  exact listen_loop_stop buffer p a l evs _ hb hp hs (by simpa [udp_init] using hrun)
    (by simp [udp_init])

theorem sys_step_running (st : UdpState) (step : Step) (h : st.running = false) :
    (sys_step st step).1.running = false := by
  cases step with
  | command userInput sockfd src size => exact handle_command_running _ _ _ _ _ h
  | listen buffer ev => simp [sys_step, h]
  | sample ioctl snprintf fd => simp [sys_step, h]
  | send snprintf v => exact h
  | cleanup =>
    simp only [sys_step, udp_cleanup]
    split_ifs <;> simp [h]

theorem read_ch_eq (ioctl : Int → SpiTransfer → SpiResult) (fd ch : Int) (speed_hz : Nat) :
    read_ch ioctl fd ch speed_hz =
      if (ioctl fd (read_ch_tr ch speed_hz)).ret < 1 then -1
      else (((((ioctl fd (read_ch_tr ch speed_hz)).rx1 % 256 &&& 0x0F) <<< 8) |||
        (ioctl fd (read_ch_tr ch speed_hz)).rx2 % 256 : Nat) : Int) := rfl

theorem convert_exact_mono {a b : ℤ} (hab : a ≤ b) : convert_exact a ≤ convert_exact b := by
  unfold convert_exact
  have hq : (a : ℚ) ≤ (b : ℚ) := by exact_mod_cast hab
  have h1 : (a : ℚ) / 4095 ≤ (b : ℚ) / 4095 := div_le_div_of_nonneg_right hq (by norm_num)
  exact mul_le_mul_of_nonneg_right h1 (by norm_num)

/-! ## The claims -/

/-- C1, as stated, fails: the payload `stop`, NUL, `x` is, after removal of
trailing CR/LF bytes, non-empty and neither exactly `send` nor exactly `stop`,
yet `handle_command` answers `Stopping server.` and clears the shutdown flag;
the payload `send`, NUL, `x` registers the sender. -/
theorem unknown_command_counterexample :
    (rstrip (bytes "stop" ++ [0, 120]) ≠ [] ∧
      rstrip (bytes "stop" ++ [0, 120]) ≠ bytes "send" ∧
      rstrip (bytes "stop" ++ [0, 120]) ≠ bytes "stop") ∧
      (handle_command (bytes "stop" ++ [0, 120] ++ [0]) 3 ⟨2, 5000, 1⟩ 16
          ⟨3, true, true, ⟨2, 4000, 9⟩, 16, true, false⟩).out
        = [⟨3, bytes "Stopping server.\n", ⟨2, 5000, 1⟩, 16⟩] ∧
      (handle_command (bytes "stop" ++ [0, 120] ++ [0]) 3 ⟨2, 5000, 1⟩ 16
          ⟨3, true, true, ⟨2, 4000, 9⟩, 16, true, false⟩).st.running = false ∧
      (rstrip (bytes "send" ++ [0, 120]) ≠ [] ∧
        rstrip (bytes "send" ++ [0, 120]) ≠ bytes "send" ∧
        rstrip (bytes "send" ++ [0, 120]) ≠ bytes "stop") ∧
      (handle_command (bytes "send" ++ [0, 120] ++ [0]) 3 ⟨2, 5000, 1⟩ 16
          ⟨3, true, true, ⟨2, 4000, 9⟩, 16, true, false⟩).st.last_client = ⟨2, 5000, 1⟩ := by
  decide

/-- C1, amended: when the text before the first NUL byte of the buffer that
`handle_command` receives is, after removal of its trailing CR/LF bytes,
neither empty nor exactly `send` nor exactly `stop`, the only datagram sent is
the reply `Unknown command. Use: send or stop` to the sender, and the state
(recipient registration and shutdown flag included) is unchanged. For a
payload without NUL bytes that text is the whole payload. -/
theorem unknown_command_reply (buf : List Nat) (sockfd : Int) (src : SockAddrIn) (size : Nat)
    (st : UdpState) (h0 : rstrip (cstr buf) ≠ []) (h1 : rstrip (cstr buf) ≠ bytes "send")
    (h2 : rstrip (cstr buf) ≠ bytes "stop") :
    (handle_command buf sockfd src size st).out
        = [⟨sockfd, bytes "Unknown command. Use: send or stop\n", src, size⟩] ∧
      (handle_command buf sockfd src size st).st = st := by
  have e := handle_command_eq_dispatch buf sockfd src size st
  simp only [dispatch, h0, h1, h2, if_false] at e
  exact ⟨(Prod.ext_iff.1 e).2, (Prod.ext_iff.1 e).1⟩

/-- C1 amended, at the payloads `ping` with a newline, `SEND`, `Stop`, and `send` with
a trailing blank. -/
theorem unknown_command_reply_witness :
    (rstrip (cstr (bytes "ping\n" ++ [0])) ≠ [] ∧
      rstrip (cstr (bytes "ping\n" ++ [0])) ≠ bytes "send" ∧
      rstrip (cstr (bytes "ping\n" ++ [0])) ≠ bytes "stop") ∧
      ((handle_command (bytes "ping\n" ++ [0]) 3 ⟨2, 5000, 1⟩ 16
          ⟨3, true, true, ⟨2, 4000, 9⟩, 16, true, false⟩).out
        = [⟨3, bytes "Unknown command. Use: send or stop\n", ⟨2, 5000, 1⟩, 16⟩] ∧
      (handle_command (bytes "ping\n" ++ [0]) 3 ⟨2, 5000, 1⟩ 16
          ⟨3, true, true, ⟨2, 4000, 9⟩, 16, true, false⟩).st
        = ⟨3, true, true, ⟨2, 4000, 9⟩, 16, true, false⟩) ∧
      (handle_command (bytes "SEND" ++ [0]) 3 ⟨2, 5000, 1⟩ 16
          ⟨3, true, true, ⟨2, 4000, 9⟩, 16, true, false⟩).st
        = ⟨3, true, true, ⟨2, 4000, 9⟩, 16, true, false⟩ ∧
      (handle_command (bytes "Stop" ++ [0]) 3 ⟨2, 5000, 1⟩ 16
          ⟨3, true, true, ⟨2, 4000, 9⟩, 16, true, false⟩).st
        = ⟨3, true, true, ⟨2, 4000, 9⟩, 16, true, false⟩ ∧
      (handle_command (bytes "send " ++ [0]) 3 ⟨2, 5000, 1⟩ 16
          ⟨3, true, true, ⟨2, 4000, 9⟩, 16, true, false⟩).st
        = ⟨3, true, true, ⟨2, 4000, 9⟩, 16, true, false⟩ :=
  ⟨⟨by decide, by decide, by decide⟩,
    unknown_command_reply _ _ _ _ _ (by decide) (by decide) (by decide),
    (unknown_command_reply _ _ _ _ _ (by decide) (by decide) (by decide)).2,
    (unknown_command_reply _ _ _ _ _ (by decide) (by decide) (by decide)).2,
    (unknown_command_reply _ _ _ _ _ (by decide) (by decide) (by decide)).2⟩

/-- C2: a command text `c` followed by any run `t` of CR/LF bytes gets the same
reply and the same resulting state as `c` with its own trailing CR/LF bytes
removed. -/
theorem trailing_eol_insensitive (c t rest rest2 : List Nat) (sockfd : Int) (src : SockAddrIn)
    (size : Nat) (st : UdpState) (ht : ∀ b ∈ t, b = 10 ∨ b = 13) :
    (handle_command (c ++ t ++ 0 :: rest) sockfd src size st).out
        = (handle_command (rstrip c ++ 0 :: rest2) sockfd src size st).out ∧
      (handle_command (c ++ t ++ 0 :: rest) sockfd src size st).st
        = (handle_command (rstrip c ++ 0 :: rest2) sockfd src size st).st := by
  have e1 := handle_command_eq_dispatch (c ++ t ++ 0 :: rest) sockfd src size st
  have e2 := handle_command_eq_dispatch (rstrip c ++ 0 :: rest2) sockfd src size st
  rw [rstrip_cstr_append c t rest ht] at e1
  rw [rstrip_cstr_rstrip c rest2] at e2
  have e := e1.trans e2.symm
  exact ⟨(Prod.ext_iff.1 e).2, (Prod.ext_iff.1 e).1⟩

/-- C2, at `send` followed by CR LF, compared with `send`. -/
theorem trailing_eol_insensitive_witness :
    (∀ b ∈ [13, 10], b = 10 ∨ b = 13) ∧
      (handle_command (bytes "send" ++ [13, 10] ++ 0 :: []) 3 ⟨2, 5000, 1⟩ 16
          ⟨3, true, true, ⟨0, 0, 0⟩, 0, false, false⟩).out
        = (handle_command (rstrip (bytes "send") ++ 0 :: []) 3 ⟨2, 5000, 1⟩ 16
          ⟨3, true, true, ⟨0, 0, 0⟩, 0, false, false⟩).out ∧
      (handle_command (bytes "send" ++ [13, 10] ++ 0 :: []) 3 ⟨2, 5000, 1⟩ 16
          ⟨3, true, true, ⟨0, 0, 0⟩, 0, false, false⟩).st
        = (handle_command (rstrip (bytes "send") ++ 0 :: []) 3 ⟨2, 5000, 1⟩ 16
          ⟨3, true, true, ⟨0, 0, 0⟩, 0, false, false⟩).st :=
  ⟨by decide, trailing_eol_insensitive _ _ _ _ _ _ _ _ (by decide)⟩

/-- C3: after `send` from `A` and then `send` from a different address `B`, on an
open socket, the registration holds exactly the address and length of `B` with
`client_known` set, and every `udp_send_sample` call sends exactly one
datagram, addressed to `B` and not to `A`. -/
theorem last_writer_wins (bufA bufB : List Nat) (fdA fdB : Int) (A B : SockAddrIn)
    (sizeA sizeB : Nat) (st : UdpState) (snprintf : ℚ → List Nat × Int) (v : ℚ)
    (hAB : A ≠ B) (hopen : 0 ≤ st.sockfd)
    (hA : rstrip (cstr bufA) = bytes "send") (hB : rstrip (cstr bufB) = bytes "send")
    (hfmt : ∀ x, 0 < (snprintf x).2) :
    (handle_command bufB fdB B sizeB (handle_command bufA fdA A sizeA st).st).st.last_client = B ∧
      (handle_command bufB fdB B sizeB
        (handle_command bufA fdA A sizeA st).st).st.last_client_len = sizeB ∧
      (handle_command bufB fdB B sizeB
        (handle_command bufA fdA A sizeA st).st).st.client_known = true ∧
      udp_send_sample snprintf
          (handle_command bufB fdB B sizeB (handle_command bufA fdA A sizeA st).st).st v
        = [⟨st.sockfd, (snprintf v).1.take (snprintf v).2.toNat, B, sizeB⟩] ∧
      ∀ d ∈ udp_send_sample snprintf
          (handle_command bufB fdB B sizeB (handle_command bufA fdA A sizeA st).st).st v,
        d.dest = B ∧ d.dest ≠ A := by
  have n1 : bytes "send" ≠ [] := by decide
  have e1 := handle_command_eq_dispatch bufA fdA A sizeA st
  rw [hA] at e1
  simp only [dispatch, n1, if_false, if_true] at e1
  have s1 := (Prod.ext_iff.1 e1).1
  simp only at s1
  have e2 := handle_command_eq_dispatch bufB fdB B sizeB (handle_command bufA fdA A sizeA st).st
  rw [hB] at e2
  simp only [dispatch, n1, if_false, if_true] at e2
  have s2 := (Prod.ext_iff.1 e2).1
  simp only at s2
  have hsend : udp_send_sample snprintf
      (handle_command bufB fdB B sizeB (handle_command bufA fdA A sizeA st).st).st v
        = [⟨st.sockfd, (snprintf v).1.take (snprintf v).2.toNat, B, sizeB⟩] := by
    have hneg : ¬ st.sockfd < 0 := by omega
    have hl : ¬ (snprintf v).2 ≤ 0 := by have := hfmt v; omega
    rw [s2, s1]
    simp [udp_send_sample, hneg, hl]
  refine ⟨by rw [s2], by rw [s2], by rw [s2], hsend, ?_⟩
  intro d hd
  rw [hsend] at hd
  simp only [List.mem_singleton] at hd
  subst hd
  exact ⟨rfl, fun h => hAB h.symm⟩

/-- C3, at two concrete clients and one sample. -/
theorem last_writer_wins_witness :
    udp_send_sample (fun _ => (bytes "1.65000\n", 8))
        (handle_command (bytes "send\n" ++ [0]) 3 ⟨2, 6000, 2⟩ 16
          (handle_command (bytes "send\n" ++ [0]) 3 ⟨2, 5000, 1⟩ 16
            ⟨3, true, true, ⟨0, 0, 0⟩, 0, false, false⟩).st).st (33 / 20)
      = [⟨3, (bytes "1.65000\n").take 8, ⟨2, 6000, 2⟩, 16⟩] :=
  (last_writer_wins (bytes "send\n" ++ [0]) (bytes "send\n" ++ [0]) 3 3 ⟨2, 5000, 1⟩
    ⟨2, 6000, 2⟩ 16 16 ⟨3, true, true, ⟨0, 0, 0⟩, 0, false, false⟩
    (fun _ => (bytes "1.65000\n", 8)) (33 / 20) (by decide) (by decide) (by decide) (by decide)
    (fun _ => show (0 : Int) < 8 by decide)).2.2.2.1

/-- C4, as stated, fails: the receive loop sent `stop` twice answers once, not
twice. -/
theorem stop_twice_counterexample :
    (udp_thread_listen 3 0 (List.replicate 512 0)
        [.dgram (bytes "stop") ⟨2, 5000, 1⟩ 16, .dgram (bytes "stop") ⟨2, 5000, 1⟩ 16]
        (udp_init ⟨-1, false, true, ⟨0, 0, 0⟩, 0, false, false⟩)).2
      = [⟨3, bytes "Stopping server.\n", ⟨2, 5000, 1⟩, 16⟩] ∧
    (udp_thread_listen 3 0 (List.replicate 512 0)
        [.dgram (bytes "stop") ⟨2, 5000, 1⟩ 16, .dgram (bytes "stop") ⟨2, 5000, 1⟩ 16]
        (udp_init ⟨-1, false, true, ⟨0, 0, 0⟩, 0, false, false⟩)).2.length ≠ 2 := by
  have h := (thread_stop 3 0 (List.replicate 512 0) (bytes "stop") ⟨2, 5000, 1⟩ 16
    [.dgram (bytes "stop") ⟨2, 5000, 1⟩ 16] ⟨-1, false, true, ⟨0, 0, 0⟩, 0, false, false⟩
    (by decide) (by decide) (List.length_replicate _ _) (by decide) (by decide) rfl).1
  rw [h]
  exact ⟨rfl, by decide⟩

/-- C4, amended: the receive loop sent `stop` twice in a row answers the first
datagram with `Stopping server.` and sets the flag to stop; the loop then ends,
so the second datagram gets no reply and the flag stays stop. The handler
itself, called on `stop` twice, sends the same confirmation each time, and the
flag is stop after the first call and after the second. -/
theorem stop_twice (sock_ret bind_ret : Int) (buffer p1 p2 : List Nat) (a1 a2 : SockAddrIn)
    (l1 l2 : Nat) (evs : List Recv) (st : UdpState) (hsock : 0 ≤ sock_ret)
    (hbind : 0 ≤ bind_ret) (hb : buffer.length = 512) (hp1 : p1.length ≤ 511)
    (hs1 : rstrip (cstr p1) = bytes "stop") (hs2 : rstrip (cstr p2) = bytes "stop")
    (hrun : st.running = true) :
    (udp_thread_listen sock_ret bind_ret buffer (.dgram p1 a1 l1 :: .dgram p2 a2 l2 :: evs)
        (udp_init st)).2 = [⟨sock_ret, bytes "Stopping server.\n", a1, l1⟩] ∧
      (udp_thread_listen sock_ret bind_ret buffer (.dgram p1 a1 l1 :: .dgram p2 a2 l2 :: evs)
        (udp_init st)).1.running = false ∧
      (handle_command p1 sock_ret a1 l1 (udp_init st)).out
        = [⟨sock_ret, bytes "Stopping server.\n", a1, l1⟩] ∧
      (handle_command p1 sock_ret a1 l1 (udp_init st)).st.running = false ∧
      (handle_command p2 sock_ret a2 l2 (handle_command p1 sock_ret a1 l1 (udp_init st)).st).out
        = [⟨sock_ret, bytes "Stopping server.\n", a2, l2⟩] ∧
      (handle_command p2 sock_ret a2 l2
        (handle_command p1 sock_ret a1 l1 (udp_init st)).st).st.running = false := by
  obtain ⟨t1, t2⟩ := thread_stop sock_ret bind_ret buffer p1 a1 l1 (.dgram p2 a2 l2 :: evs) st
    hsock hbind hb hp1 hs1 hrun
  have e1 := handle_command_eq_dispatch p1 sock_ret a1 l1 (udp_init st)
  rw [hs1] at e1
  obtain ⟨d1, d2, d3⟩ := dispatch_stop sock_ret a1 l1 (udp_init st) (by simp [udp_init])
  rw [← e1] at d1 d2 d3
  simp only at d1 d2 d3
  have e2 := handle_command_eq_dispatch p2 sock_ret a2 l2
    (handle_command p1 sock_ret a1 l1 (udp_init st)).st
  rw [hs2] at e2
  obtain ⟨f1, _, f3⟩ := dispatch_stop sock_ret a2 l2
    (handle_command p1 sock_ret a1 l1 (udp_init st)).st d2
  rw [← e2] at f1 f3
  simp only at f1 f3
  exact ⟨t1, t2, d3, d1, f3, f1⟩

/-- C4 amended, at two `stop` datagrams from one client. -/
theorem stop_twice_witness :
    (udp_thread_listen 3 0 (List.replicate 512 0)
        (.dgram (bytes "stop\n") ⟨2, 5000, 1⟩ 16 :: .dgram (bytes "stop\n") ⟨2, 5000, 1⟩ 16 :: [])
        (udp_init ⟨-1, false, true, ⟨0, 0, 0⟩, 0, false, false⟩)).2
      = [⟨3, bytes "Stopping server.\n", ⟨2, 5000, 1⟩, 16⟩] :=
  (stop_twice 3 0 (List.replicate 512 0) (bytes "stop\n") (bytes "stop\n") ⟨2, 5000, 1⟩
    ⟨2, 5000, 1⟩ 16 16 [] ⟨-1, false, true, ⟨0, 0, 0⟩, 0, false, false⟩ (by decide) (by decide)
    (List.length_replicate _ _) (by decide) (by decide) (by decide) rfl).1

/-- C5, as stated, fails: a payload that starts with a NUL byte is neither empty
nor made of CR/LF bytes only, and still gets no reply. -/
theorem listener_reply_counterexample :
    (listen_iter (List.replicate 512 0) (0 :: bytes "send") ⟨2, 5000, 1⟩ 16
        ⟨3, true, true, ⟨0, 0, 0⟩, 0, false, false⟩).out = [] ∧
      0 :: bytes "send" ≠ [] ∧ ¬ (∀ b ∈ 0 :: bytes "send", b = 10 ∨ b = 13) := by
  have e := listen_iter_eq_dispatch (List.replicate 512 0) (0 :: bytes "send") ⟨2, 5000, 1⟩ 16
    ⟨3, true, true, ⟨0, 0, 0⟩, 0, false, false⟩ (List.length_replicate _ _) (by decide)
  have h : rstrip (cstr (0 :: bytes "send")) = [] := by decide
  rw [h] at e
  refine ⟨?_, by decide, by decide⟩
  exact (Prod.ext_iff.1 e).2

/-- C5, amended: handling a received payload of at most 511 bytes sends no
reply and changes no state when the text before the first NUL byte of the
payload is empty or CR/LF bytes only, and otherwise sends exactly one reply,
one of the three protocol lines, to the sender. For a payload without NUL
bytes, no reply is sent exactly when the payload has no bytes or CR/LF bytes
only. -/
theorem listener_reply_policy (buffer payload : List Nat) (src : SockAddrIn) (srclen : Nat)
    (st : UdpState) (hb : buffer.length = 512) (hp : payload.length ≤ 511) :
    (rstrip (cstr payload) = [] →
        (listen_iter buffer payload src srclen st).out = [] ∧
          (listen_iter buffer payload src srclen st).st = st) ∧
      (rstrip (cstr payload) ≠ [] →
        ∃ reply, reply ∈ [bytes "OK: streaming ECG samples.\n", bytes "Stopping server.\n",
            bytes "Unknown command. Use: send or stop\n"] ∧
          (listen_iter buffer payload src srclen st).out = [⟨st.sockfd, reply, src, srclen⟩]) ∧
      ((∀ b ∈ payload, b ≠ 0) →
        ((listen_iter buffer payload src srclen st).out = [] ↔
          ∀ b ∈ payload, b = 10 ∨ b = 13)) := by
  have e := listen_iter_eq_dispatch buffer payload src srclen st hb hp
  have hout := (Prod.ext_iff.1 e).2
  have hst := (Prod.ext_iff.1 e).1
  simp only at hout hst
  have hne : rstrip (cstr payload) ≠ [] →
      ∃ reply, reply ∈ [bytes "OK: streaming ECG samples.\n", bytes "Stopping server.\n",
          bytes "Unknown command. Use: send or stop\n"] ∧
        (listen_iter buffer payload src srclen st).out = [⟨st.sockfd, reply, src, srclen⟩] := by
    intro h0
    rw [hout]
    have n1 : bytes "send" ≠ [] := by decide
    have n2 : bytes "stop" ≠ [] := by decide
    have n3 : bytes "stop" ≠ bytes "send" := by decide
    by_cases e1 : rstrip (cstr payload) = bytes "send"
    · refine ⟨_, List.mem_cons_self _ _, ?_⟩
      simp only [dispatch, e1, n1, if_true, if_false]
    · by_cases e2 : rstrip (cstr payload) = bytes "stop"
      · refine ⟨_, List.mem_cons_of_mem _ (List.mem_cons_self _ _), ?_⟩
        simp only [dispatch, e2, n2, n3, if_true, if_false]
      · refine ⟨_, List.mem_cons_of_mem _ (List.mem_cons_of_mem _ (List.mem_cons_self _ _)), ?_⟩
        simp only [dispatch, h0, e1, e2, if_false]
  refine ⟨?_, hne, ?_⟩
  · intro h0
    rw [hout, hst, h0]
    simp [dispatch]
  · intro hnz
    have hc : cstr payload = payload := cstr_of_ne_zero payload hnz
    have hnil : rstrip payload = [] ↔ ∀ b ∈ payload, b = 10 ∨ b = 13 := by
      unfold rstrip
      rw [List.rdropWhile_eq_nil_iff]
      simp [isEol]
    rw [hc] at hne hout
    rw [← hnil]
    constructor
    · intro ho
      by_contra h0
      obtain ⟨reply, _, hr⟩ := hne h0
      rw [hr] at ho
      simp at ho
    · intro h0
      rw [hout, h0]
      simp [dispatch]

/-- C5 amended, at the payload `ping` followed by a newline. -/
theorem listener_reply_policy_witness :
    ∃ reply, reply ∈ [bytes "OK: streaming ECG samples.\n", bytes "Stopping server.\n",
        bytes "Unknown command. Use: send or stop\n"] ∧
      (listen_iter (List.replicate 512 0) (bytes "ping\n") ⟨2, 5000, 1⟩ 16
          ⟨3, true, true, ⟨0, 0, 0⟩, 0, false, false⟩).out
        = [⟨3, reply, ⟨2, 5000, 1⟩, 16⟩] :=
  (listener_reply_policy (List.replicate 512 0) (bytes "ping\n") ⟨2, 5000, 1⟩ 16
    ⟨3, true, true, ⟨0, 0, 0⟩, 0, false, false⟩ (List.length_replicate _ _)
    (by decide)).2.1 (by decide)

/-- C6: for every channel, every transfer outcome and every response bytes,
`read_ch` returns either `-1` or an integer in `[0, 4095]`, and when the
transfer does not fail the result is `((rx[1] & 0x0F) << 8) | rx[2]`. -/
theorem read_ch_range (ioctl : Int → SpiTransfer → SpiResult) (fd ch : Int) (speed_hz : Nat) :
    (read_ch ioctl fd ch speed_hz = -1 ∨
        (0 ≤ read_ch ioctl fd ch speed_hz ∧ read_ch ioctl fd ch speed_hz ≤ 4095)) ∧
      read_ch ioctl fd ch speed_hz =
        if (ioctl fd (read_ch_tr ch speed_hz)).ret < 1 then -1
        else (((((ioctl fd (read_ch_tr ch speed_hz)).rx1 % 256 &&& 0x0F) <<< 8) |||
          (ioctl fd (read_ch_tr ch speed_hz)).rx2 % 256 : Nat) : Int) := by
  refine ⟨?_, read_ch_eq ioctl fd ch speed_hz⟩
  rw [read_ch_eq]
  split_ifs with h
  · exact Or.inl rfl
  · right
    have := reading_lt (ioctl fd (read_ch_tr ch speed_hz)).rx1
      (ioctl fd (read_ch_tr ch speed_hz)).rx2
    constructor
    · exact Int.ofNat_nonneg _
    · have h2 : ((((ioctl fd (read_ch_tr ch speed_hz)).rx1 % 256 &&& 0x0F) <<< 8) |||
          (ioctl fd (read_ch_tr ch speed_hz)).rx2 % 256 : Nat) ≤ 4095 := by omega
      exact_mod_cast h2

/-- C7, as stated, fails: when the transfer reports 1 byte (or 2) instead of the
3 requested, `read_ch` returns a reading, not `-1`. -/
theorem read_ch_short_counterexample :
    read_ch (fun _ _ => ⟨1, 0, 0x0A, 0xBC⟩) 0 1 250000 = 2748 ∧
      read_ch (fun _ _ => ⟨2, 0, 0x0A, 0xBC⟩) 0 1 250000 = 2748 ∧
      (read_ch_tr 1 250000).len = 3 := by decide

/-- C7, amended: `read_ch` requests a 3-byte transfer and returns `-1` exactly
when the transfer call returns less than 1 (zero or a negative error value);
for every return value from 1 up (1 and 2 as well as 3) it returns the reading
`((rx[1] & 0x0F) << 8) | rx[2]`, which lies in `[0, 4095]`. -/
theorem read_ch_fails_iff (ioctl : Int → SpiTransfer → SpiResult) (fd ch : Int)
    (speed_hz : Nat) :
    (read_ch_tr ch speed_hz).len = 3 ∧
      (read_ch ioctl fd ch speed_hz = -1 ↔ (ioctl fd (read_ch_tr ch speed_hz)).ret < 1) ∧
      read_ch ioctl fd ch speed_hz =
        (if (ioctl fd (read_ch_tr ch speed_hz)).ret < 1 then -1
        else (((((ioctl fd (read_ch_tr ch speed_hz)).rx1 % 256 &&& 0x0F) <<< 8) |||
          (ioctl fd (read_ch_tr ch speed_hz)).rx2 % 256 : Nat) : Int)) ∧
      ((((ioctl fd (read_ch_tr ch speed_hz)).rx1 % 256 &&& 0x0F) <<< 8) |||
        (ioctl fd (read_ch_tr ch speed_hz)).rx2 % 256) ≤ 4095 := by
  refine ⟨rfl, ?_, read_ch_eq ioctl fd ch speed_hz, ?_⟩
  · rw [read_ch_eq]
    split_ifs with h
    · exact ⟨fun _ => h, fun _ => rfl⟩
    · constructor
      · intro h1
        exact h1.elim
      · intro h1
        exact absurd h1 h
  · have := reading_lt (ioctl fd (read_ch_tr ch speed_hz)).rx1
      (ioctl fd (read_ch_tr ch speed_hz)).rx2
    omega

/-- C8: the conversion `(ch1 / 4095.0f) * 3.3f` in `float` arithmetic maps `0`
to `0`, maps `4095` to the `float` nearest to 3.3 (which is within `10^-7` of
3.3), and is monotone non-decreasing on non-negative readings; the conversion
over the rationals maps `0` to `0`, `4095` to exactly 3.3, and is monotone. -/
theorem convert_properties (a b : ℤ) (h0 : 0 ≤ a) (hab : a ≤ b) :
    convert 0 = 0 ∧ convert 4095 = f32 (33 / 10) ∧ |convert 4095 - 33 / 10| ≤ 1 / 10 ^ 7 ∧
      convert a ≤ convert b ∧
      convert_exact 0 = 0 ∧ convert_exact 4095 = 33 / 10 ∧
      convert_exact a ≤ convert_exact b := by
  refine ⟨convert_zero, ?_, ?_, convert_mono h0 hab, ?_, ?_, convert_exact_mono hab⟩
  · rw [convert_4095, f32_3_3]
  · rw [convert_4095, abs_le]
    constructor <;> norm_num
  · simp [convert_exact]
  · norm_num [convert_exact]

/-- C8, at the readings 1000 and 3000. -/
theorem convert_properties_witness : convert 1000 ≤ convert 3000 :=
  (convert_properties 1000 3000 (by decide) (by decide)).2.2.2.1

/-- C9: once the shutdown flag is stop (`running = false`), it is stop after any
further sequence of handler calls, receive-loop iterations, sampler iterations,
`udp_send_sample` calls and cleanup. -/
theorem shutdown_flag_monotone (steps : List Step) (st : UdpState) (h : st.running = false) :
    (run steps st).1.running = false := by
  induction steps generalizing st with
  | nil => exact h
  | cons step steps ih => exact ih (sys_step st step).1 (sys_step_running st step h)

/-- C9, from the state reached from startup by a `stop` command, followed by a
`send` command, a sampler iteration and cleanup. -/
theorem shutdown_flag_monotone_witness :
    (run [.command (bytes "stop\n" ++ [0]) 3 ⟨2, 5000, 1⟩ 16] startup).1.running = false ∧
      (run [.command (bytes "send\n" ++ [0]) 3 ⟨2, 5000, 1⟩ 16,
            .sample (fun _ _ => ⟨3, 0, 8, 0⟩) (fun _ => (bytes "1.65000\n", 8)) 0, .cleanup]
          (run [.command (bytes "stop\n" ++ [0]) 3 ⟨2, 5000, 1⟩ 16] startup).1).1.running
        = false :=
  ⟨by decide, shutdown_flag_monotone _ _ (by decide)⟩

/-- C10, the code's behaviour: in a sampler iteration whose bus read fails,
`read_ch` returns `-1`, the sampler converts it (to a negative `float`) and
hands it to `udp_send_sample`, which sends it to the registered recipient; the
loop goes on to the next iteration. -/
theorem failed_read_is_emitted (ioctl : Int → SpiTransfer → SpiResult)
    (snprintf : ℚ → List Nat × Int) (fd : Int) (st : UdpState)
    (rest : List (Int → SpiTransfer → SpiResult))
    (hfail : (ioctl fd (read_ch_tr 1 speed)).ret < 1) (hrun : st.running = true)
    (hk : st.client_known = true) (hs : 0 ≤ st.sockfd)
    (hlen : 0 < (snprintf (convert (-1))).2) :
    read_ch ioctl fd 1 speed = -1 ∧ convert (-1) = -1730573 / 2147483648 ∧
      (sampler_iter ioctl snprintf fd st).sent
        = [⟨st.sockfd, (snprintf (convert (-1))).1.take (snprintf (convert (-1))).2.toNat,
            st.last_client, st.last_client_len⟩] ∧
      sampler snprintf fd st (ioctl :: rest)
        = sampler_iter ioctl snprintf fd st :: sampler snprintf fd st rest := by
  have hr : read_ch ioctl fd 1 speed = -1 := by
    rw [read_ch_eq, if_pos hfail]
  refine ⟨hr, convert_neg_one, ?_, ?_⟩
  · have hneg : ¬ st.sockfd < 0 := by omega
    have hl : ¬ (snprintf (convert (-1))).2 ≤ 0 := by omega
    simp [sampler_iter, hr, udp_send_sample, hk, hneg, hl]
  · simp [sampler, hrun]

/-- C10, at a failing transfer with a registered recipient. -/
theorem failed_read_is_emitted_witness :
    (sampler_iter (fun _ _ => ⟨-1, 0, 0, 0⟩) (fun _ => (bytes "-0.00081\n", 9)) 0
        ⟨3, true, true, ⟨2, 5000, 1⟩, 16, true, false⟩).sent
      = [⟨3, (bytes "-0.00081\n").take 9, ⟨2, 5000, 1⟩, 16⟩] :=
  (failed_read_is_emitted (fun _ _ => ⟨-1, 0, 0, 0⟩) (fun _ => (bytes "-0.00081\n", 9)) 0
    ⟨3, true, true, ⟨2, 5000, 1⟩, 16, true, false⟩ [] (by decide) rfl rfl (by decide)
    (show (0 : Int) < 9 by decide)).2.2.1

end ECG
